import Mathlib

/-!
# Verification of the rocketype typing-session engine

A shallow embedding, in Lean 4, of the core of the `rocketype` terminal
typing-test program (Go), together with proofs about the embedded code.

Conventions of the embedding:
* Go strings and `[]rune` slices are modelled as `List Char` (the engine
  keeps `userInput : string` and `userRunes : []rune` in lock-step, so a
  single `List Char` field represents both).  Where Go's `len` on a
  `string` counts *bytes*, we model it with `utf8Len` (sum of the UTF-8
  sizes of the code points); where it counts runes we use `List.length`.
* Go `int` values that are only ever non-negative in the engine
  (cursor position, word start, counters) are modelled as `Nat`;
  `int` parameters that may be negative (layout dimensions) as `Int`,
  with Go's truncating division `/` modelled by `Int.tdiv`.
* Go maps are modelled as association lists (`misspelledWords`) or as
  lists of keys mapped to `true` (`wordHadError`), with the Go zero-value
  lookup default.
* `float64` quantities (WPM, accuracy) are modelled as `ℚ`; the Go
  conversion `int(x)` (truncation toward zero) is `ratTrunc`.
* Wall-clock time (start/end timestamps, WPM timeline snapshots,
  keystroke-event timestamps) is not modelled: the fields of `Stats`
  kept here are exactly those the verified claims are about, and the
  omitted timing code neither reads nor writes these fields' logic.
-/

namespace Rocketype

/-! ## Embedding of `internal/stats.go` -/

/-- Go's `unicode.IsSpace`, restricted to the code points of its space
table (`\t \n \v \f \r space NEL NBSP` plus the Unicode space runes).
Used by `strings.TrimSpace` and `strings.Fields`. -/
def goIsSpace (c : Char) : Bool :=
  c.toNat ∈ [0x09, 0x0A, 0x0B, 0x0C, 0x0D, 0x20, 0x85, 0xA0,
              0x1680, 0x2028, 0x2029, 0x202F, 0x205F, 0x3000]
  || (0x2000 ≤ c.toNat && c.toNat ≤ 0x200A)

/-- `strings.TrimSpace`: drop leading and trailing whitespace code points. -/
def trimSpace (l : List Char) : List Char :=
  ((l.dropWhile goIsSpace).reverse.dropWhile goIsSpace).reverse

/-- `strings.ContainsAny(word, "\n\r\t")`. -/
def containsNRT (l : List Char) : Bool :=
  l.any fun c => c == '\n' || c == '\r' || c == '\t'

/-- `strings.Contains(word, "  ")`: two adjacent spaces occur. -/
def containsDoubleSpace : List Char → Bool
  | [] => false
  | [_] => false
  | a :: b :: rest => (a == ' ' && b == ' ') || containsDoubleSpace (b :: rest)

/-- `strings.Fields`: split around runs of whitespace, dropping empties. -/
def fields : List Char → List (List Char)
  | [] => []
  | c :: cs =>
    if goIsSpace c then fields cs
    else (c :: cs.takeWhile (fun x => !goIsSpace x))
          :: fields (cs.dropWhile (fun x => !goIsSpace x))
termination_by l => l.length
decreasing_by
  · simp only [List.length_cons]; omega
  · simp only [List.length_cons]
    have := (List.dropWhile_sublist (l := cs) (fun x => !goIsSpace x)).length_le
    omega

/-- Byte length of the UTF-8 encoding of a rune sequence: Go's `len` on a
`string`. -/
def utf8Len (l : List Char) : Nat :=
  (l.map Char.utf8Size).sum

/-- The statistics tracker (`Stats` in `internal/stats.go`), restricted to
its non-timing fields.  `misspelledWords` is the `map[string]int`,
`misspelledOrder` the insertion-order list, `wordHadError` the set of
word-start positions mapped to `true` in the `map[int]bool`. -/
structure Stats where
  totalKeystrokes : Nat
  correctKeystrokes : Nat
  misspelledWords : List (List Char × Nat)
  misspelledOrder : List (List Char)
  wordHadError : List Nat
  testComplete : Bool
deriving DecidableEq, Repr

/-- `NewStats`: all fields zero-initialised. -/
def NewStats : Stats :=
  { totalKeystrokes := 0, correctKeystrokes := 0, misspelledWords := [],
    misspelledOrder := [], wordHadError := [], testComplete := false }

/-- Go map read `m[word]` with the zero-value default `0`. -/
def lookupCount : List (List Char × Nat) → List Char → Nat
  | [], _ => 0
  | (k, v) :: rest, w => if k = w then v else lookupCount rest w

/-- Go map increment `m[word]++` (insert with count 1 when absent). -/
def bumpCount : List (List Char × Nat) → List Char → List (List Char × Nat)
  | [], w => [(w, 1)]
  | (k, v) :: rest, w =>
    if k = w then (k, v + 1) :: rest else (k, v) :: bumpCount rest w

/-- `Stats.RecordKeystroke` (the keystroke-event timestamping and WPM
timeline update touch only unmodelled timing fields). -/
def RecordKeystroke (s : Stats) (correct : Bool) : Stats :=
  { s with totalKeystrokes := s.totalKeystrokes + 1,
           correctKeystrokes :=
             if correct then s.correctKeystrokes + 1 else s.correctKeystrokes }

/-- `Stats.MarkCurrentWordAsError`: `s.wordHadError[wordStart] = true`. -/
def MarkCurrentWordAsError (s : Stats) (wordStart : Nat) : Stats :=
  { s with wordHadError :=
      if wordStart ∈ s.wordHadError then s.wordHadError
      else wordStart :: s.wordHadError }

/-- `Stats.WordHadError`: map read with zero-value default `false`. -/
def WordHadError (s : Stats) (wordStart : Nat) : Bool :=
  s.wordHadError.contains wordStart

/-- `Stats.Finish` (the end-time record is unmodelled). -/
def Finish (s : Stats) : Stats :=
  { s with testComplete := true }

theorem trimSpace_length_le (l : List Char) : (trimSpace l).length ≤ l.length := by
  have h1 := (List.dropWhile_sublist (l := l) goIsSpace).length_le
  have h2 := (List.dropWhile_sublist (l := (l.dropWhile goIsSpace).reverse) goIsSpace).length_le
  simp only [trimSpace, List.length_reverse] at *
  omega

theorem takeWhile_length_lt {p : Char → Bool} {l : List Char} {c : Char}
    (hc : c ∈ l) (hpc : p c = false) : (l.takeWhile p).length < l.length := by
  induction l with
  | nil => cases hc
  | cons a as ih =>
    rcases List.mem_cons.1 hc with rfl | hmem
    · rw [List.takeWhile_cons, hpc]; simp
    · rw [List.takeWhile_cons]
      cases hpa : p a with
      | false => simp
      | true =>
        simp only [List.length_cons]
        exact Nat.succ_lt_succ (ih hmem)

theorem fields_length_le (l : List Char) (tok : List Char)
    (h : tok ∈ fields l) : tok.length ≤ l.length := by
  induction l using fields.induct with
  | case1 => simp only [fields] at h; cases h
  | case2 c cs hsp ih =>
    rw [fields, if_pos hsp] at h
    exact le_trans (ih h) (by simp)
  | case3 c cs hsp ih =>
    rw [fields, if_neg hsp] at h
    rcases List.mem_cons.1 h with rfl | hmem
    · have := (List.takeWhile_sublist (l := cs) (fun x => !goIsSpace x)).length_le
      simp only [List.length_cons]
      omega
    · have := (List.dropWhile_sublist (l := cs) (fun x => !goIsSpace x)).length_le
      have := ih hmem
      simp only [List.length_cons]
      omega

theorem fields_length_lt (l : List Char) (tok : List Char)
    (h : tok ∈ fields l) (hsp : ∃ c ∈ l, goIsSpace c = true) :
    tok.length < l.length := by
  induction l using fields.induct with
  | case1 => simp only [fields] at h; cases h
  | case2 c cs hc ih =>
    rw [fields, if_pos hc] at h
    have := fields_length_le cs tok h
    simp only [List.length_cons]
    omega
  | case3 c cs hc ih =>
    rw [fields, if_neg hc] at h
    obtain ⟨d, hd, hdsp⟩ := hsp
    have hdcs : d ∈ cs := by
      rcases List.mem_cons.1 hd with rfl | hmem
      · exact absurd hdsp (by simpa using hc)
      · exact hmem
    rcases List.mem_cons.1 h with rfl | hmem
    · have : (cs.takeWhile (fun x => !goIsSpace x)).length < cs.length :=
        takeWhile_length_lt hdcs (by simp [hdsp])
      simp only [List.length_cons]
      omega
    · have := (List.dropWhile_sublist (l := cs) (fun x => !goIsSpace x)).length_le
      have := fields_length_le _ tok hmem
      simp only [List.length_cons]
      omega

theorem mem_of_containsDoubleSpace {l : List Char}
    (h : containsDoubleSpace l = true) : ' ' ∈ l := by
  induction l with
  | nil => simp [containsDoubleSpace] at h
  | cons a rest ih =>
    cases rest with
    | nil => simp [containsDoubleSpace] at h
    | cons b r =>
      rw [containsDoubleSpace] at h
      rcases Bool.or_eq_true_iff.1 h with h1 | h2
      · have : a = ' ' := by
          have := (Bool.and_eq_true_iff.1 h1).1
          exact beq_iff_eq.1 this
        simp [this]
      · exact List.mem_cons_of_mem _ (ih h2)

theorem space_mem_of_split_cond {w : List Char}
    (h : (containsNRT w || containsDoubleSpace w) = true) :
    ∃ c ∈ w, goIsSpace c = true := by
  rcases Bool.or_eq_true_iff.1 h with h1 | h2
  · obtain ⟨c, hc, hprop⟩ := List.any_eq_true.1 h1
    refine ⟨c, hc, ?_⟩
    rcases Bool.or_eq_true_iff.1 hprop with h3 | h4
    · rcases Bool.or_eq_true_iff.1 h3 with h5 | h6
      · rw [beq_iff_eq.1 h5]; decide
      · rw [beq_iff_eq.1 h6]; decide
    · rw [beq_iff_eq.1 h4]; decide
  · exact ⟨' ', mem_of_containsDoubleSpace h2, by decide⟩

/-- `Stats.RecordMisspelledWord`: trim whitespace; ignore empty words;
split-and-recurse when the word holds `\n`/`\r`/`\t` or a double space;
discard one-byte words other than `a`/`A`/`i`/`I`; append to the
first-seen order on first occurrence and increment the count. -/
def RecordMisspelledWord (s : Stats) (word : List Char) : Stats :=
  let w := trimSpace word
  if w = [] then s
  else if containsNRT w || containsDoubleSpace w then
    (fields w).attach.foldl (fun acc t => RecordMisspelledWord acc t.1) s
  else if utf8Len w = 1 ∧ w.headD ' ' ∉ ['a', 'A', 'i', 'I'] then s
  else
    { s with
      misspelledOrder :=
        if lookupCount s.misspelledWords w = 0 then s.misspelledOrder ++ [w]
        else s.misspelledOrder,
      misspelledWords := bumpCount s.misspelledWords w }
termination_by word.length
decreasing_by
  exact lt_of_lt_of_le
    (fields_length_lt _ _ t.2 (space_mem_of_split_cond (by assumption)))
    (trimSpace_length_le word)

/-- `Stats.GetAccuracy`: `correct/total*100`, or `100` at zero keystrokes. -/
def GetAccuracy (s : Stats) : ℚ :=
  if s.totalKeystrokes = 0 then 100
  else ((s.correctKeystrokes : ℚ) / (s.totalKeystrokes : ℚ)) * 100

/-! ## Embedding of `internal/typingtest.go` -/

/-- The typing-test engine state.  `sampleRunes`/`userRunes` stand for
both the cached rune slices and the underlying strings (kept in
lock-step by the Go code). -/
structure TypingTest where
  sampleRunes : List Char
  userRunes : List Char
  cursorPos : Nat
  wordStart : Nat
  stats : Stats
  finished : Bool
deriving DecidableEq, Repr

/-- `NewTypingTest`. -/
def NewTypingTest (sampleText : List Char) : TypingTest :=
  { sampleRunes := sampleText, userRunes := [], cursorPos := 0,
    wordStart := 0, stats := NewStats, finished := false }

/-- `TypingTest.IsFinished`. -/
def IsFinished (t : TypingTest) : Bool :=
  t.finished

/-- `TypingTest.MarkFinished`. -/
def MarkFinished (t : TypingTest) : TypingTest :=
  if ¬t.finished then { t with stats := Finish t.stats, finished := true }
  else t

/-- `TypingTest.finishWord`: record the sample-text word
`sampleRunes[wordStart:wordEnd]` as misspelled when its error flag is set. -/
def finishWord (t : TypingTest) (wordEnd : Nat) : TypingTest :=
  if WordHadError t.stats t.wordStart then
    { t with stats := (RecordMisspelledWord t.stats
        ((t.sampleRunes.drop t.wordStart).take (wordEnd - t.wordStart))) }
  else t

/-- `TypingTest.checkCompletion`: at the end of the sample, record the
trailing word `sampleRunes[wordStart:]` if flagged, finish the stats and
set `finished`. -/
def checkCompletion (t : TypingTest) : TypingTest :=
  if t.sampleRunes.length ≤ t.cursorPos then
    let t1 :=
      if t.wordStart < t.sampleRunes.length then
        if WordHadError t.stats t.wordStart then
          { t with stats := (RecordMisspelledWord t.stats
              (t.sampleRunes.drop t.wordStart)) }
        else t
      else t
    { t1 with stats := Finish t1.stats, finished := true }
  else t

/-- `TypingTest.TypeCharacter`.  (`stats.Start()` only records the
wall-clock start time, which is outside the model.) -/
def TypeCharacter (t : TypingTest) (typedChar : Char) : Bool × TypingTest :=
  if t.sampleRunes.length ≤ t.cursorPos then (false, t)
  else
    let expectedChar := t.sampleRunes.getD t.cursorPos ' '
    let correct := expectedChar = typedChar
    let s1 := RecordKeystroke t.stats correct
    let s2 := if ¬correct then MarkCurrentWordAsError s1 t.wordStart else s1
    let t1 := { t with stats := s2,
                       userRunes := t.userRunes ++ [typedChar],
                       cursorPos := t.cursorPos + 1 }
    let t2 :=
      if typedChar = ' ' ∧ t1.wordStart < t1.cursorPos - 1 then
        let t' := finishWord t1 (t1.cursorPos - 1)
        { t' with wordStart := t'.cursorPos }
      else t1
    (true, checkCompletion t2)

/-- `TypingTest.TypeNewline`. -/
def TypeNewline (t : TypingTest) : Bool × TypingTest :=
  if t.sampleRunes.length ≤ t.cursorPos then (false, t)
  else
    let expectedChar := t.sampleRunes.getD t.cursorPos ' '
    let correct := expectedChar = '\n'
    let s1 := RecordKeystroke t.stats correct
    let s2 := if ¬correct then MarkCurrentWordAsError s1 t.wordStart else s1
    let t1 := { t with stats := s2,
                       userRunes := t.userRunes ++ ['\n'],
                       cursorPos := t.cursorPos + 1 }
    let t2 := if t1.wordStart < t1.cursorPos - 1 then finishWord t1 (t1.cursorPos - 1)
              else t1
    let t3 := { t2 with wordStart := t2.cursorPos }
    (true, checkCompletion t3)

/-- The `Backspace` word-start walk:
`for wordStart > 0 && sampleRunes[wordStart-1] != ' ' { wordStart-- }`. -/
def backWalk (sample : List Char) : Nat → Nat
  | 0 => 0
  | w + 1 => if sample.getD w ' ' ≠ ' ' then backWalk sample w else w + 1

/-- `TypingTest.Backspace`. -/
def Backspace (t : TypingTest) : TypingTest :=
  if t.cursorPos = 0 then t
  else
    let t1 := { t with cursorPos := t.cursorPos - 1 }
    let t2 := if 0 < t1.userRunes.length then { t1 with userRunes := t1.userRunes.dropLast }
              else t1
    if t2.cursorPos < t2.sampleRunes.length ∧ t2.sampleRunes.getD t2.cursorPos ' ' = ' '
    then { t2 with wordStart := backWalk t2.sampleRunes t2.wordStart }
    else t2

/-! ## Embedding of `internal/renderer.go` -/

/-- The break-point search of `wrapText`: the index one past the last
space of the current line, or the line's length when it has no space
(`for i := len-1; i >= 0; i-- { if currentLine[i] == ' ' { breakPoint = i+1; break } }`). -/
def breakPoint : List Char → Nat
  | [] => 0
  | c :: cs => if c = ' ' ∧ ' ' ∉ cs then 1 else 1 + breakPoint cs

/-- One iteration of `wrapText`'s character loop, acting on the pair
`(lines, currentLine)`. -/
def wrapStep (maxWidth : ℤ) (acc : List (List Char) × List Char) (ch : Char) :
    List (List Char) × List Char :=
  if ch = '\n' then (acc.1 ++ [acc.2 ++ ['\n']], [])
  else if maxWidth ≤ (acc.2.length : ℤ) then
    let bp := breakPoint acc.2
    (acc.1 ++ [acc.2.take bp], acc.2.drop bp ++ [ch])
  else (acc.1, acc.2 ++ [ch])

/-- `wrapText` from `internal/renderer.go`. -/
def wrapText (text : List Char) (maxWidth : ℤ) : List (List Char) :=
  let r := text.foldl (wrapStep maxWidth) ([], [])
  if 0 < r.2.length then r.1 ++ [r.2] else r.1

/-- `CalculateScrollLine` (first version in `internal/renderer.go`). -/
def CalculateScrollLine (cursorLine maxVisibleLines totalLines : ℤ) : ℤ :=
  if totalLines ≤ maxVisibleLines then 0
  else
    let desiredCursorPosition := maxVisibleLines.tdiv 3
    let scrollLine := cursorLine - desiredCursorPosition
    let scrollLine := if scrollLine < 0 then 0 else scrollLine
    let maxScroll := totalLines - maxVisibleLines
    if maxScroll < scrollLine then maxScroll else scrollLine

/-- `CalculateScrollLine` (second version in `internal/renderer.go`,
which additionally caps the desired cursor position to keep a buffer
line below the cursor). -/
def CalculateScrollLine2 (cursorLine maxVisibleLines totalLines : ℤ) : ℤ :=
  if totalLines ≤ maxVisibleLines then 0
  else
    let minBufferBelow : ℤ := 1
    let d0 := maxVisibleLines.tdiv 3
    let maxCursorPosition := maxVisibleLines - minBufferBelow - 1
    let desiredCursorPosition := if maxCursorPosition < d0 then maxCursorPosition else d0
    let scrollLine := cursorLine - desiredCursorPosition
    let scrollLine := if scrollLine < 0 then 0 else scrollLine
    let maxScroll := totalLines - maxVisibleLines
    if maxScroll < scrollLine then maxScroll else scrollLine

/-- Go's `int(x)` conversion of a `float64`: truncation toward zero. -/
def ratTrunc (q : ℚ) : ℤ :=
  if q < 0 then -⌊-q⌋ else ⌊q⌋

/-- The Y-axis scale computation of `drawWPMGraph`:
`maxWPM = float64(int(maxWPM/25)+1)*25; if maxWPM < 25 { maxWPM = 25 }`. -/
def wpmGraphScale (maxObservedWPM : ℚ) : ℚ :=
  let m : ℚ := ((ratTrunc (maxObservedWPM / 25) : ℚ) + 1) * 25
  if m < 25 then 25 else m

/-! ## Definitions written from the specification's words (used only to
compare the spec against the code, never as the embedding itself) -/

/-- Modelled from the spec: the Y-axis scale the spec describes for the
WPM graph, `ceil(maxObservedWPM/25)*25` with a minimum scale of 25. -/
def specYScale (maxObservedWPM : ℚ) : ℚ :=
  max ((⌈maxObservedWPM / 25⌉ : ℚ) * 25) 25

/-- Modelled from the spec: "the start index of the previous word (the
index one past the nearest earlier space, or 0)" relative to a cursor
position. -/
def specPrevWordStart (sample : List Char) : Nat → Nat
  | 0 => 0
  | p + 1 => if sample.getD p ' ' = ' ' then p + 1 else specPrevWordStart sample p

/-- The states reachable from `NewTypingTest text` by any sequence of
`TypeCharacter`, `TypeNewline` and `Backspace` calls. -/
inductive Reachable (text : List Char) : TypingTest → Prop where
  | base : Reachable text (NewTypingTest text)
  | typeChar (t : TypingTest) (ch : Char) :
      Reachable text t → Reachable text (TypeCharacter t ch).2
  | typeNl (t : TypingTest) :
      Reachable text t → Reachable text (TypeNewline t).2
  | back (t : TypingTest) :
      Reachable text t → Reachable text (Backspace t)

/-! ## Supporting lemmas -/

/-- Unfolding equation for `RecordMisspelledWord` with the termination
scaffolding (`List.attach`) removed. -/
theorem RecordMisspelledWord_def (s : Stats) (word : List Char) :
    RecordMisspelledWord s word =
      (if trimSpace word = [] then s
       else if containsNRT (trimSpace word) || containsDoubleSpace (trimSpace word) then
         (fields (trimSpace word)).foldl RecordMisspelledWord s
       else if utf8Len (trimSpace word) = 1 ∧
                (trimSpace word).headD ' ' ∉ ['a', 'A', 'i', 'I'] then s
       else
         { s with
           misspelledOrder :=
             if lookupCount s.misspelledWords (trimSpace word) = 0 then
               s.misspelledOrder ++ [trimSpace word]
             else s.misspelledOrder,
           misspelledWords := bumpCount s.misspelledWords (trimSpace word) }) := by
  rw [RecordMisspelledWord]
  simp only [List.foldl_attach]

/-- `RecordMisspelledWord` touches only the ledger fields: the keystroke
counters, the error flags and the completion flag are preserved. -/
theorem RecordMisspelledWord_preserves_aux :
    ∀ (n : ℕ) (word : List Char), word.length ≤ n → ∀ s : Stats,
      (RecordMisspelledWord s word).wordHadError = s.wordHadError ∧
      (RecordMisspelledWord s word).totalKeystrokes = s.totalKeystrokes ∧
      (RecordMisspelledWord s word).correctKeystrokes = s.correctKeystrokes ∧
      (RecordMisspelledWord s word).testComplete = s.testComplete := by
  intro n
  induction n with
  | zero =>
    intro word hlen s
    have hword : word = [] := List.length_eq_zero.1 (Nat.le_zero.1 hlen)
    subst hword
    rw [RecordMisspelledWord_def]
    simp [trimSpace]
  | succ n ih =>
    intro word hlen s
    rw [RecordMisspelledWord_def]
    by_cases h1 : trimSpace word = []
    · simp [h1]
    · rw [if_neg h1]
      by_cases h2 : (containsNRT (trimSpace word) || containsDoubleSpace (trimSpace word)) = true
      · rw [if_pos h2]
        have haux : ∀ (ts : List (List Char)), (∀ u ∈ ts, u.length ≤ n) →
            ∀ s0 : Stats,
              ((ts.foldl RecordMisspelledWord s0).wordHadError = s0.wordHadError ∧
               (ts.foldl RecordMisspelledWord s0).totalKeystrokes = s0.totalKeystrokes ∧
               (ts.foldl RecordMisspelledWord s0).correctKeystrokes = s0.correctKeystrokes ∧
               (ts.foldl RecordMisspelledWord s0).testComplete = s0.testComplete) := by
          intro ts
          induction ts with
          | nil => intro _ s0; simp
          | cons a as iha =>
            intro hts s0
            have hA := ih a (hts a (List.mem_cons_self a as)) s0
            have hAs := iha (fun u hu => hts u (List.mem_cons_of_mem a hu))
              (RecordMisspelledWord s0 a)
            simp only [List.foldl_cons]
            exact ⟨hAs.1.trans hA.1, hAs.2.1.trans hA.2.1,
                   hAs.2.2.1.trans hA.2.2.1, hAs.2.2.2.trans hA.2.2.2⟩
        apply haux
        intro u hu
        have h3 := fields_length_lt _ _ hu (space_mem_of_split_cond h2)
        have h4 := trimSpace_length_le word
        omega
      · rw [if_neg h2]
        by_cases h3 : utf8Len (trimSpace word) = 1 ∧
            (trimSpace word).headD ' ' ∉ ['a', 'A', 'i', 'I']
        · rw [if_pos h3]
          exact ⟨rfl, rfl, rfl, rfl⟩
        · rw [if_neg h3]
          exact ⟨rfl, rfl, rfl, rfl⟩

theorem RecordMisspelledWord_preserves (s : Stats) (word : List Char) :
    (RecordMisspelledWord s word).wordHadError = s.wordHadError ∧
    (RecordMisspelledWord s word).totalKeystrokes = s.totalKeystrokes ∧
    (RecordMisspelledWord s word).correctKeystrokes = s.correctKeystrokes ∧
    (RecordMisspelledWord s word).testComplete = s.testComplete :=
  RecordMisspelledWord_preserves_aux word.length word le_rfl s

theorem lookupCount_bumpCount_self (m : List (List Char × Nat)) (w : List Char) :
    lookupCount (bumpCount m w) w = lookupCount m w + 1 := by
  induction m with
  | nil => simp [bumpCount, lookupCount]
  | cons p rest ih =>
    obtain ⟨k, v⟩ := p
    by_cases hk : k = w
    · subst hk
      simp [bumpCount, lookupCount]
    · simp [bumpCount, lookupCount, hk, ih]

theorem lookupCount_bumpCount_ne (m : List (List Char × Nat)) {w w' : List Char}
    (h : w ≠ w') : lookupCount (bumpCount m w') w = lookupCount m w := by
  have hne : ¬(w' = w) := fun he => h he.symm
  induction m with
  | nil => simp [bumpCount, lookupCount, hne]
  | cons p rest ih =>
    obtain ⟨k, v⟩ := p
    by_cases hk : k = w'
    · subst hk
      simp [bumpCount, lookupCount, hne]
    · by_cases hw : k = w
      · subst hw
        simp [bumpCount, lookupCount, hk]
      · simp [bumpCount, lookupCount, hk, hw, ih]

theorem backWalk_le (sample : List Char) (w : Nat) : backWalk sample w ≤ w := by
  induction w with
  | zero => simp [backWalk]
  | succ n ih =>
    rw [backWalk]
    split
    · omega
    · omega

theorem backWalk_spec (sample : List Char) (w : Nat) :
    backWalk sample w = 0 ∨ sample.getD (backWalk sample w - 1) ' ' = ' ' := by
  induction w with
  | zero => left; rfl
  | succ n ih =>
    rw [backWalk]
    split
    · exact ih
    · rename_i hcond
      right
      simp only [Nat.add_sub_cancel]
      exact not_not.1 hcond

theorem backWalk_ge (sample : List Char) (w v : Nat) (hv : v ≤ w)
    (h : v = 0 ∨ sample.getD (v - 1) ' ' = ' ') : v ≤ backWalk sample w := by
  induction w with
  | zero => omega
  | succ n ih =>
    rw [backWalk]
    split
    · rename_i hns
      rcases Nat.lt_or_ge v (n + 1) with hlt | hge
      · exact ih (by omega)
      · have hveq : v = n + 1 := by omega
        subst hveq
        rcases h with h0 | hsp
        · omega
        · simp only [Nat.add_sub_cancel] at hsp
          exact absurd hsp hns
    · exact hv

@[simp] theorem finishWord_sampleRunes (t : TypingTest) (e : Nat) :
    (finishWord t e).sampleRunes = t.sampleRunes := by
  unfold finishWord; split <;> rfl

@[simp] theorem finishWord_userRunes (t : TypingTest) (e : Nat) :
    (finishWord t e).userRunes = t.userRunes := by
  unfold finishWord; split <;> rfl

@[simp] theorem finishWord_cursorPos (t : TypingTest) (e : Nat) :
    (finishWord t e).cursorPos = t.cursorPos := by
  unfold finishWord; split <;> rfl

@[simp] theorem finishWord_wordStart (t : TypingTest) (e : Nat) :
    (finishWord t e).wordStart = t.wordStart := by
  unfold finishWord; split <;> rfl

@[simp] theorem finishWord_finished (t : TypingTest) (e : Nat) :
    (finishWord t e).finished = t.finished := by
  unfold finishWord; split <;> rfl

@[simp] theorem checkCompletion_sampleRunes (t : TypingTest) :
    (checkCompletion t).sampleRunes = t.sampleRunes := by
  simp only [checkCompletion]; split_ifs <;> rfl

@[simp] theorem checkCompletion_userRunes (t : TypingTest) :
    (checkCompletion t).userRunes = t.userRunes := by
  simp only [checkCompletion]; split_ifs <;> rfl

@[simp] theorem checkCompletion_cursorPos (t : TypingTest) :
    (checkCompletion t).cursorPos = t.cursorPos := by
  simp only [checkCompletion]; split_ifs <;> rfl

@[simp] theorem checkCompletion_wordStart (t : TypingTest) :
    (checkCompletion t).wordStart = t.wordStart := by
  simp only [checkCompletion]; split_ifs <;> rfl

theorem Backspace_stats (t : TypingTest) : (Backspace t).stats = t.stats := by
  simp only [Backspace]; split_ifs <;> rfl

theorem Backspace_sampleRunes (t : TypingTest) :
    (Backspace t).sampleRunes = t.sampleRunes := by
  simp only [Backspace]; split_ifs <;> rfl

theorem Backspace_finished (t : TypingTest) :
    (Backspace t).finished = t.finished := by
  simp only [Backspace]; split_ifs <;> rfl

/-! ## Claim theorems -/

/-- C4, counterexample.  The specification claims "an empty SampleText
starts Finished immediately: IsFinished() returns true before any
keystroke is delivered"; but `NewTypingTest` always initialises
`finished` to `false` and `checkCompletion` only runs from within
`TypeCharacter`/`TypeNewline`, which reject input at cursor = end = 0,
so the engine reports `IsFinished() = false` on an empty sample. -/
theorem C4_empty_sample_not_finished_counterexample :
    IsFinished (NewTypingTest []) = false := by
  decide

/-- C4, amended: a typing test created over an empty SampleText does
*not* start Finished: `IsFinished` returns `false` before any
keystroke; `TypeCharacter`/`TypeNewline` reject input (returning
`false` and leaving the state unchanged), so only `MarkFinished` can
finish such a test. -/
theorem C4_empty_sample_behaviour :
    IsFinished (NewTypingTest []) = false ∧
    TypeCharacter (NewTypingTest []) 'a' = (false, NewTypingTest []) ∧
    TypeNewline (NewTypingTest []) = (false, NewTypingTest []) ∧
    IsFinished (MarkFinished (NewTypingTest [])) = true := by
  decide

/-- C5, counterexample.  The specification claims `TypeCharacter` is a
no-op returning `false` whenever the test is already Finished,
including a test finished early via `MarkFinished`; but the code only
guards on the cursor position, so a test marked finished with the
cursor not at the end still accepts and processes keystrokes. -/
theorem C5_finished_still_types_counterexample :
    IsFinished (MarkFinished (NewTypingTest ['a', 'b'])) = true ∧
    (TypeCharacter (MarkFinished (NewTypingTest ['a', 'b'])) 'a').1 = true ∧
    (TypeCharacter (MarkFinished (NewTypingTest ['a', 'b'])) 'a').2.cursorPos = 1 := by
  decide

/-- C5, amended: `TypeCharacter` and `TypeNewline` are no-ops returning
`false` and leaving the engine state unchanged exactly when the cursor
is at the end of the sample text; the `finished` flag itself is never
consulted, so a test finished early via `MarkFinished` (cursor not at
the end) still accepts keystrokes (both calls return `true`). -/
theorem C5_reject_iff_cursor_at_end (t : TypingTest) (ch : Char) :
    (t.sampleRunes.length ≤ t.cursorPos →
      TypeCharacter t ch = (false, t) ∧ TypeNewline t = (false, t)) ∧
    (t.cursorPos < t.sampleRunes.length →
      (TypeCharacter t ch).1 = true ∧ (TypeNewline t).1 = true) := by
  constructor
  · intro h
    constructor
    · rw [TypeCharacter, if_pos h]
    · rw [TypeNewline, if_pos h]
  · intro h
    constructor
    · rw [TypeCharacter, if_neg (by omega)]
    · rw [TypeNewline, if_neg (by omega)]

/-- C5, witness for the amended theorem at a concrete state. -/
theorem C5_reject_iff_cursor_at_end_witness :
    ((NewTypingTest ['a']).sampleRunes.length ≤
        (MarkFinished (checkCompletion ((TypeCharacter (NewTypingTest ['a']) 'a').2))).cursorPos ∧
      TypeCharacter (MarkFinished (checkCompletion ((TypeCharacter (NewTypingTest ['a']) 'a').2))) 'x'
        = (false, MarkFinished (checkCompletion ((TypeCharacter (NewTypingTest ['a']) 'a').2)))) ∧
    ((NewTypingTest ['a', 'b']).cursorPos < (NewTypingTest ['a', 'b']).sampleRunes.length ∧
      (TypeCharacter (NewTypingTest ['a', 'b']) 'a').1 = true) := by
  constructor
  · exact ⟨by decide,
      ((C5_reject_iff_cursor_at_end _ 'x').1 (by decide)).1⟩
  · exact ⟨by decide,
      ((C5_reject_iff_cursor_at_end (NewTypingTest ['a', 'b']) 'a').2 (by decide)).1⟩

/-- C9: `CalculateScrollLine` (in both of its versions in the source)
always returns a value in `[0, max 0 (totalLines - maxVisibleLines)]`,
and returns exactly 0 whenever `totalLines ≤ maxVisibleLines`. -/
theorem C9_scroll_line_bounds (cursorLine maxVisibleLines totalLines : ℤ) :
    (0 ≤ CalculateScrollLine cursorLine maxVisibleLines totalLines ∧
     CalculateScrollLine cursorLine maxVisibleLines totalLines ≤
       max 0 (totalLines - maxVisibleLines) ∧
     (totalLines ≤ maxVisibleLines →
       CalculateScrollLine cursorLine maxVisibleLines totalLines = 0)) ∧
    (0 ≤ CalculateScrollLine2 cursorLine maxVisibleLines totalLines ∧
     CalculateScrollLine2 cursorLine maxVisibleLines totalLines ≤
       max 0 (totalLines - maxVisibleLines) ∧
     (totalLines ≤ maxVisibleLines →
       CalculateScrollLine2 cursorLine maxVisibleLines totalLines = 0)) := by
  constructor
  · simp only [CalculateScrollLine]
    split_ifs <;> omega
  · simp only [CalculateScrollLine2]
    split_ifs <;> omega

/-- C9, witness at concrete inputs. -/
theorem C9_scroll_line_bounds_witness :
    (0 ≤ CalculateScrollLine 10 5 20 ∧
     CalculateScrollLine 10 5 20 ≤ max 0 (20 - 5)) ∧
    ((3 : ℤ) ≤ 7 ∧ CalculateScrollLine2 1 7 3 = 0) := by
  refine ⟨⟨(C9_scroll_line_bounds 10 5 20).1.1, (C9_scroll_line_bounds 10 5 20).1.2.1⟩,
          by decide, (C9_scroll_line_bounds 1 7 3).2.2.2 (by decide)⟩

theorem TypeCharacter_effects (t : TypingTest) (ch : Char)
    (h : t.cursorPos < t.sampleRunes.length) :
    (TypeCharacter t ch).2.cursorPos = t.cursorPos + 1 ∧
    (TypeCharacter t ch).2.userRunes = t.userRunes ++ [ch] ∧
    (TypeCharacter t ch).2.sampleRunes = t.sampleRunes := by
  simp only [TypeCharacter]
  rw [if_neg (by omega)]
  refine ⟨?_, ?_, ?_⟩ <;> (split_ifs <;> simp)

theorem TypeNewline_effects (t : TypingTest)
    (h : t.cursorPos < t.sampleRunes.length) :
    (TypeNewline t).2.cursorPos = t.cursorPos + 1 ∧
    (TypeNewline t).2.userRunes = t.userRunes ++ ['\n'] ∧
    (TypeNewline t).2.sampleRunes = t.sampleRunes := by
  simp only [TypeNewline]
  rw [if_neg (by omega)]
  refine ⟨?_, ?_, ?_⟩ <;> (split_ifs <;> simp)

theorem Backspace_effects (t : TypingTest) (h : 0 < t.cursorPos) :
    (Backspace t).cursorPos = t.cursorPos - 1 ∧
    (Backspace t).userRunes = t.userRunes.dropLast := by
  simp only [Backspace]
  rw [if_neg (by omega)]
  split_ifs with h1 h2 h3 <;>
    first
    | exact ⟨rfl, rfl⟩
    | · refine ⟨rfl, ?_⟩
        have : t.userRunes = [] := List.length_eq_zero.1 (by omega)
        simp [this]

/-- C6: every state reachable from `NewTypingTest text` by any sequence
of `TypeCharacter`, `TypeNewline` and `Backspace` calls satisfies
`CursorPos ≤ len(SampleText)` and `len(UserInput) = CursorPos`
(`0 ≤ CursorPos` holds by the `Nat` representation). -/
theorem C6_cursor_invariant (text : List Char) (t : TypingTest)
    (h : Reachable text t) :
    t.cursorPos ≤ t.sampleRunes.length ∧ t.userRunes.length = t.cursorPos := by
  induction h with
  | base => exact ⟨Nat.zero_le _, rfl⟩
  | typeChar t0 ch h0 ih =>
    by_cases hc : t0.cursorPos < t0.sampleRunes.length
    · obtain ⟨h1, h2, h3⟩ := TypeCharacter_effects t0 ch hc
      rw [h1, h2, h3]
      refine ⟨by omega, ?_⟩
      rw [List.length_append, ih.2]
      simp
    · have heq : TypeCharacter t0 ch = (false, t0) := by
        simp only [TypeCharacter]
        rw [if_pos (by omega)]
      rw [heq]
      exact ih
  | typeNl t0 h0 ih =>
    by_cases hc : t0.cursorPos < t0.sampleRunes.length
    · obtain ⟨h1, h2, h3⟩ := TypeNewline_effects t0 hc
      rw [h1, h2, h3]
      refine ⟨by omega, ?_⟩
      rw [List.length_append, ih.2]
      simp
    · have heq : TypeNewline t0 = (false, t0) := by
        simp only [TypeNewline]
        rw [if_pos (by omega)]
      rw [heq]
      exact ih
  | back t0 h0 ih =>
    by_cases hc : t0.cursorPos = 0
    · have heq : Backspace t0 = t0 := by
        simp only [Backspace]
        rw [if_pos hc]
      rw [heq]
      exact ih
    · obtain ⟨h1, h2⟩ := Backspace_effects t0 (by omega)
      rw [h1, h2, Backspace_sampleRunes]
      refine ⟨by omega, ?_⟩
      rw [List.length_dropLast, ih.2]

/-- C6, witness: the invariant applied to a concrete reachable state. -/
theorem C6_cursor_invariant_witness :
    (TypeCharacter (NewTypingTest ['h', 'i']) 'h').2.cursorPos ≤
        (TypeCharacter (NewTypingTest ['h', 'i']) 'h').2.sampleRunes.length ∧
    (TypeCharacter (NewTypingTest ['h', 'i']) 'h').2.userRunes.length =
        (TypeCharacter (NewTypingTest ['h', 'i']) 'h').2.cursorPos :=
  C6_cursor_invariant ['h', 'i'] _
    (Reachable.typeChar _ 'h' Reachable.base)

/-- C3, counterexample.  The specification claims that when a Backspace
lands the cursor on a space of the sample text, `WordStart` becomes the
start index of the *previous* word ("the index one past the nearest
earlier space, or 0"), so continued editing re-enters that word.  On
sample `"ab cd"`, after typing `a`, `b`, `space` (all correct) and one
Backspace the cursor lands on the space at index 2; the previous word
`"ab"` starts at 0, but the code leaves `WordStart = 3` (the start of
the *next* word): the walk stops immediately because the character
before `WordStart` is already a space. -/
theorem C3_backspace_wordstart_counterexample :
    (Backspace (TypeCharacter
        (TypeCharacter
          (TypeCharacter (NewTypingTest ['a', 'b', ' ', 'c', 'd']) 'a').2
          'b').2
        ' ').2).cursorPos = 2 ∧
    ['a', 'b', ' ', 'c', 'd'].getD 2 ' ' = ' ' ∧
    (Backspace (TypeCharacter
        (TypeCharacter
          (TypeCharacter (NewTypingTest ['a', 'b', ' ', 'c', 'd']) 'a').2
          'b').2
        ' ').2).wordStart = 3 ∧
    specPrevWordStart ['a', 'b', ' ', 'c', 'd'] 2 = 0 := by
  decide

/-- C3, amended: after a `Backspace` from `CursorPos > 0`, `CursorPos`
is decremented and the last `UserInput` element dropped; if the new
cursor lands on a space of the sample text, `WordStart` becomes the
*largest* index `w ≤` the old `WordStart` such that `w = 0` or the
character before `w` is a space (a newline does not stop the walk) — in
particular, when the old `WordStart` already follows a space, it is
unchanged, and the engine does not re-enter the word before the
cursor. -/
theorem C3_backspace_behaviour (t : TypingTest) (h : 0 < t.cursorPos) :
    (Backspace t).cursorPos = t.cursorPos - 1 ∧
    (Backspace t).userRunes = t.userRunes.dropLast ∧
    (t.cursorPos - 1 < t.sampleRunes.length →
     t.sampleRunes.getD (t.cursorPos - 1) ' ' = ' ' →
       ((Backspace t).wordStart ≤ t.wordStart ∧
        ((Backspace t).wordStart = 0 ∨
          t.sampleRunes.getD ((Backspace t).wordStart - 1) ' ' = ' ') ∧
        ∀ v, v ≤ t.wordStart → (v = 0 ∨ t.sampleRunes.getD (v - 1) ' ' = ' ') →
          v ≤ (Backspace t).wordStart)) := by
  refine ⟨(Backspace_effects t h).1, (Backspace_effects t h).2, ?_⟩
  intro hlt hsp
  have hws : (Backspace t).wordStart = backWalk t.sampleRunes t.wordStart := by
    simp only [Backspace]
    rw [if_neg (by omega)]
    split_ifs with h1 h2 h3 <;>
      first
      | rfl
      | · exfalso
          first
          | exact h2 ⟨by simpa using hlt, by simpa using hsp⟩
          | exact h3 ⟨by simpa using hlt, by simpa using hsp⟩
  rw [hws]
  exact ⟨backWalk_le _ _, backWalk_spec _ _,
    fun v hv hvsp => backWalk_ge _ _ v hv hvsp⟩

/-- C3, witness for the amended theorem on the `"ab cd"` trace. -/
theorem C3_backspace_behaviour_witness :
    0 < (TypeCharacter
          (TypeCharacter
            (TypeCharacter (NewTypingTest ['a', 'b', ' ', 'c', 'd']) 'a').2
            'b').2
          ' ').2.cursorPos ∧
    (Backspace (TypeCharacter
        (TypeCharacter
          (TypeCharacter (NewTypingTest ['a', 'b', ' ', 'c', 'd']) 'a').2
          'b').2
        ' ').2).cursorPos =
      (TypeCharacter
        (TypeCharacter
          (TypeCharacter (NewTypingTest ['a', 'b', ' ', 'c', 'd']) 'a').2
          'b').2
        ' ').2.cursorPos - 1 := by
  exact ⟨by decide, (C3_backspace_behaviour _ (by decide)).1⟩

/-- C7: `GetAccuracy` returns exactly 100 at zero keystrokes, returns
`correct/total*100` otherwise, and for a fixed correct count is
non-increasing as incorrect keystrokes accumulate (an incorrect
keystroke — `RecordKeystroke false` — only increments the total). -/
theorem C7_accuracy (s : Stats) (c i j : ℕ) (hij : i ≤ j) :
    (s.totalKeystrokes = 0 → GetAccuracy s = 100) ∧
    (s.totalKeystrokes ≠ 0 →
      GetAccuracy s = (s.correctKeystrokes : ℚ) / (s.totalKeystrokes : ℚ) * 100) ∧
    GetAccuracy { s with totalKeystrokes := c + j, correctKeystrokes := c } ≤
      GetAccuracy { s with totalKeystrokes := c + i, correctKeystrokes := c } ∧
    RecordKeystroke s false = { s with totalKeystrokes := s.totalKeystrokes + 1 } := by
  refine ⟨fun h => by simp [GetAccuracy, h],
          fun h => by simp [GetAccuracy, h],
          ?_, by simp [RecordKeystroke]⟩
  by_cases hci : c + i = 0
  · have hc0 : c = 0 := by omega
    have hi0 : i = 0 := by omega
    subst hc0
    subst hi0
    simp only [GetAccuracy]
    split_ifs <;> norm_num
  · have hcj : c + j ≠ 0 := by omega
    simp only [GetAccuracy, if_neg hci, if_neg hcj]
    have h1 : (0 : ℚ) < ((c + i : ℕ) : ℚ) :=
      Nat.cast_pos.2 (Nat.pos_of_ne_zero hci)
    have h2 : ((c + i : ℕ) : ℚ) ≤ ((c + j : ℕ) : ℚ) := Nat.cast_le.2 (by omega)
    have h3 : (0 : ℚ) ≤ (c : ℚ) := Nat.cast_nonneg c
    gcongr

/-- C7, witness at a concrete statistics state. -/
theorem C7_accuracy_witness :
    (0 : ℕ) ≤ 1 ∧
    GetAccuracy { NewStats with totalKeystrokes := 1 + 1, correctKeystrokes := 1 } ≤
      GetAccuracy { NewStats with totalKeystrokes := 1 + 0, correctKeystrokes := 1 } :=
  ⟨Nat.zero_le 1, (C7_accuracy NewStats 1 0 1 (Nat.zero_le 1)).2.2.1⟩

/-- C10, counterexample.  The specification claims the WPM graph's
Y-axis upper bound is `ceil(maxObservedWPM/25)*25` (min 25), so an
exact multiple of 25 would yield that multiple; the code computes
`(int(maxWPM/25)+1)*25`, which at `maxWPM = 50` yields 75, not 50. -/
theorem C10_wpm_scale_counterexample :
    wpmGraphScale 50 = 75 ∧ specYScale 50 = 50 := by
  constructor
  · rw [wpmGraphScale, ratTrunc]
    norm_num
  · rw [specYScale]
    norm_num

/-- C10, amended: the Y-axis upper bound is `(trunc(max/25)+1)*25`
(minimum 25).  For a non-negative maximum that is *not* an exact
multiple of 25 this equals `ceil(max/25)*25` as the spec says; for an
exact multiple `25k` it is `max + 25` instead of `max`. -/
theorem C10_wpm_scale (q : ℚ) (hq : 0 ≤ q) :
    ((¬ ∃ k : ℤ, q = 25 * k) → wpmGraphScale q = (⌈q / 25⌉ : ℚ) * 25) ∧
    (∀ k : ℤ, q = 25 * k → wpmGraphScale q = q + 25) := by
  have htr : ratTrunc (q / 25) = ⌊q / 25⌋ := by
    rw [ratTrunc, if_neg]
    push_neg
    positivity
  constructor
  · intro hnk
    have hq0 : q ≠ 0 := by
      rintro rfl
      exact hnk ⟨0, by norm_num⟩
    have hqpos : 0 < q := lt_of_le_of_ne hq (Ne.symm hq0)
    have hne : ∀ k : ℤ, q / 25 ≠ (k : ℚ) := by
      intro k hk
      rw [div_eq_iff (by norm_num : (25 : ℚ) ≠ 0)] at hk
      exact hnk ⟨k, by linarith⟩
    have hceil : ⌈q / 25⌉ = ⌊q / 25⌋ + 1 := by
      have h1 := Int.ceil_le_floor_add_one (q / 25)
      have h2 : ⌊q / 25⌋ < ⌈q / 25⌉ := by
        by_contra hcon
        push_neg at hcon
        have hfl : ((⌊q / 25⌋ : ℤ) : ℚ) = q / 25 :=
          le_antisymm (Int.floor_le _)
            (le_trans (Int.le_ceil _) (by exact_mod_cast hcon))
        exact hne _ hfl.symm
      omega
    have hcpos : 1 ≤ ⌈q / 25⌉ := Int.ceil_pos.2 (by positivity)
    rw [wpmGraphScale, htr, hceil]
    rw [if_neg]
    · push_cast
      ring
    · push_neg
      have h0 : (0 : ℤ) ≤ ⌊q / 25⌋ := Int.floor_nonneg.2 (by positivity)
      have h1 : (0 : ℚ) ≤ ((⌊q / 25⌋ : ℤ) : ℚ) := by exact_mod_cast h0
      nlinarith
  · intro k hk
    subst hk
    have hk0 : 0 ≤ k := by
      by_contra hneg
      push_neg at hneg
      have : ((25 : ℚ) * k) < 0 := by
        have : (k : ℚ) < 0 := by exact_mod_cast hneg
        nlinarith
      linarith
    have hdiv : (25 : ℚ) * k / 25 = (k : ℚ) := by ring
    rw [wpmGraphScale, htr, hdiv, Int.floor_intCast]
    rw [if_neg]
    · ring
    · push_neg
      have : (0 : ℚ) ≤ (k : ℚ) := by exact_mod_cast hk0
      nlinarith

/-- C10, witness: the amended scale law applied at 30 (not a multiple
of 25) and at 50 (an exact multiple). -/
theorem C10_wpm_scale_witness :
    (0 : ℚ) ≤ 30 ∧ wpmGraphScale 30 = (⌈(30 : ℚ) / 25⌉ : ℚ) * 25 ∧
    (0 : ℚ) ≤ 50 ∧ (50 : ℚ) = 25 * ((2 : ℤ) : ℚ) ∧ wpmGraphScale 50 = 50 + 25 := by
  refine ⟨by norm_num, ?_, by norm_num, by norm_num, ?_⟩
  · refine (C10_wpm_scale 30 (by norm_num)).1 ?_
    rintro ⟨k, hk⟩
    have hk5 : (k : ℚ) = 6 / 5 := by linarith
    have hfl := Int.floor_intCast (α := ℚ) k
    rw [hk5] at hfl
    norm_num at hfl
    rw [← hfl] at hk5
    norm_num at hk5
  · exact (C10_wpm_scale 50 (by norm_num)).2 2 (by norm_num)

theorem fields_no_space (l : List Char) (tok : List Char) (h : tok ∈ fields l) :
    ∀ c ∈ tok, goIsSpace c = false := by
  induction l using fields.induct with
  | case1 => simp only [fields] at h; cases h
  | case2 c cs hc ih =>
    rw [fields, if_pos hc] at h
    exact ih h
  | case3 c cs hc ih =>
    rw [fields, if_neg hc] at h
    rcases List.mem_cons.1 h with rfl | hmem
    · intro x hx
      rcases List.mem_cons.1 hx with rfl | hx2
      · simpa using hc
      · have := List.mem_takeWhile_imp hx2
        simpa using this
    · exact ih hmem

theorem fields_ne_nil (l : List Char) (tok : List Char) (h : tok ∈ fields l) :
    tok ≠ [] := by
  induction l using fields.induct with
  | case1 => simp only [fields] at h; cases h
  | case2 c cs hc ih =>
    rw [fields, if_pos hc] at h
    exact ih h
  | case3 c cs hc ih =>
    rw [fields, if_neg hc] at h
    rcases List.mem_cons.1 h with rfl | hmem
    · simp
    · exact ih hmem

theorem trimSpace_eq_self {w : List Char} (hw : ∀ c ∈ w, goIsSpace c = false) :
    trimSpace w = w := by
  have hdrop : ∀ (l : List Char), (∀ c ∈ l, goIsSpace c = false) →
      l.dropWhile goIsSpace = l := by
    intro l hl
    cases l with
    | nil => rfl
    | cons a as =>
      rw [List.dropWhile_cons, hl a (List.mem_cons_self a as)]
      simp
  rw [trimSpace, hdrop w hw,
      hdrop _ (fun c hc => hw c (List.mem_reverse.1 hc)), List.reverse_reverse]

theorem containsNRT_eq_false {w : List Char}
    (hw : ∀ c ∈ w, goIsSpace c = false) : containsNRT w = false := by
  rw [containsNRT, List.any_eq_false]
  intro c hc hcon
  have hns := hw c hc
  rcases Bool.or_eq_true_iff.1 hcon with h1 | h2
  · rcases Bool.or_eq_true_iff.1 h1 with h3 | h4
    · rw [beq_iff_eq.1 h3] at hns
      exact absurd hns (by decide)
    · rw [beq_iff_eq.1 h4] at hns
      exact absurd hns (by decide)
  · rw [beq_iff_eq.1 h2] at hns
    exact absurd hns (by decide)

theorem containsDoubleSpace_eq_false {w : List Char}
    (hw : ∀ c ∈ w, goIsSpace c = false) : containsDoubleSpace w = false := by
  by_contra h
  have htrue : containsDoubleSpace w = true := by
    revert h
    cases containsDoubleSpace w <;> simp
  have := hw ' ' (mem_of_containsDoubleSpace htrue)
  exact absurd this (by decide)

/-- On a whitespace-free, non-empty word `RecordMisspelledWord` reaches
its final branches directly. -/
theorem RecordMisspelledWord_base (s : Stats) (w : List Char)
    (hns : ∀ c ∈ w, goIsSpace c = false) (hne : w ≠ []) :
    RecordMisspelledWord s w =
      if utf8Len w = 1 ∧ w.headD ' ' ∉ ['a', 'A', 'i', 'I'] then s
      else
        { s with
          misspelledOrder :=
            if lookupCount s.misspelledWords w = 0 then s.misspelledOrder ++ [w]
            else s.misspelledOrder,
          misspelledWords := bumpCount s.misspelledWords w } := by
  rw [RecordMisspelledWord_def, trimSpace_eq_self hns, if_neg hne,
      containsNRT_eq_false hns, containsDoubleSpace_eq_false hns]
  rw [if_neg (by simp)]

/-- Effect of folding `RecordMisspelledWord` over a list of
whitespace-free, non-empty tokens on the count of one such token. -/
theorem foldl_RMW_lookup (ts : List (List Char))
    (hts : ∀ u ∈ ts, (∀ c ∈ u, goIsSpace c = false) ∧ u ≠ [])
    (tok : List Char) (htokne : tok ≠ []) :
    ∀ s : Stats,
      lookupCount (ts.foldl RecordMisspelledWord s).misspelledWords tok =
        lookupCount s.misspelledWords tok +
          (if utf8Len tok = 1 ∧ tok.headD ' ' ∉ ['a', 'A', 'i', 'I'] then 0
           else ts.count tok) := by
  induction ts with
  | nil =>
    intro s
    simp
  | cons a as ih =>
    intro s
    have ha := hts a (List.mem_cons_self a as)
    rw [List.foldl_cons, ih (fun u hu => hts u (List.mem_cons_of_mem a hu)),
        RecordMisspelledWord_base s a ha.1 ha.2]
    by_cases htf : utf8Len tok = 1 ∧ tok.headD ' ' ∉ ['a', 'A', 'i', 'I']
    · rw [if_pos htf, if_pos htf]
      by_cases hav : utf8Len a = 1 ∧ a.headD ' ' ∉ ['a', 'A', 'i', 'I']
      · rw [if_pos hav]
      · rw [if_neg hav]
        have hat : a ≠ tok := fun he => hav (he ▸ htf)
        simp only [Stats.misspelledWords]
        rw [lookupCount_bumpCount_ne _ (fun he => hat he.symm)]
    · rw [if_neg htf, if_neg htf]
      by_cases hav : utf8Len a = 1 ∧ a.headD ' ' ∉ ['a', 'A', 'i', 'I']
      · rw [if_pos hav]
        have hat : a ≠ tok := fun he => htf (he ▸ hav)
        rw [List.count_cons]
        have hbeq : ¬(a == tok) = true := by
          simp only [beq_iff_eq]
          exact hat
        rw [if_neg hbeq]
        omega
      · rw [if_neg hav]
        simp only [Stats.misspelledWords]
        by_cases hat : a = tok
        · subst hat
          rw [lookupCount_bumpCount_self, List.count_cons, if_pos (by simp)]
          omega
        · rw [lookupCount_bumpCount_ne _ (fun he => hat he.symm),
              List.count_cons]
          have hbeq : ¬(a == tok) = true := by
            simp only [beq_iff_eq]
            exact hat
          rw [if_neg hbeq]
          omega

/-- C2, counterexample.  The specification claims that "if internal
whitespace remains in the trimmed word it is split into tokens and each
token is recorded separately", and that single-character tokens other
than a/A/i/I are discarded.  The code only splits when the word holds
`\n`, `\r`, `\t` or a double space, so `"ab cd"` (one internal space)
is recorded whole and its tokens are not recorded; and the
single-character filter tests the *byte* length, so the one-character,
two-byte word `"é"` is recorded rather than discarded. -/
theorem C2_record_misspelled_counterexample :
    (RecordMisspelledWord NewStats ['a', 'b', ' ', 'c', 'd']).misspelledOrder
        = [['a', 'b', ' ', 'c', 'd']] ∧
    lookupCount (RecordMisspelledWord NewStats
        ['a', 'b', ' ', 'c', 'd']).misspelledWords ['a', 'b'] = 0 ∧
    lookupCount (RecordMisspelledWord NewStats ['é']).misspelledWords ['é'] = 1 := by
  refine ⟨?_, ?_, ?_⟩ <;> · rw [RecordMisspelledWord_def]; decide

/-- C2, amended: `RecordMisspelledWord(word)` trims surrounding
whitespace and is a no-op if the trimmed word is empty; it splits into
whitespace-separated tokens and records each token separately *only*
when the trimmed word holds `\n`, `\r`, `\t` or two adjacent spaces (a
single internal space is recorded as part of the word, unsplit); a
token of byte length 1 is discarded unless it is `a`/`A`/`i`/`I`
(a one-character multi-byte token is kept); a recorded word is appended
to the first-seen order list exactly on its first occurrence, and
repeats increment its count. -/
theorem C2_record_misspelled (s : Stats) (word : List Char) :
    (trimSpace word = [] → RecordMisspelledWord s word = s) ∧
    ((containsNRT (trimSpace word) || containsDoubleSpace (trimSpace word)) = true →
      RecordMisspelledWord s word =
        (fields (trimSpace word)).foldl RecordMisspelledWord s ∧
      (∀ tok, tok ∈ fields (trimSpace word) → tok ≠ [] →
        lookupCount (RecordMisspelledWord s word).misspelledWords tok =
          lookupCount s.misspelledWords tok +
            (if utf8Len tok = 1 ∧ tok.headD ' ' ∉ ['a', 'A', 'i', 'I'] then 0
             else (fields (trimSpace word)).count tok))) ∧
    (trimSpace word ≠ [] →
     (containsNRT (trimSpace word) || containsDoubleSpace (trimSpace word)) = false →
     utf8Len (trimSpace word) = 1 →
     (trimSpace word).headD ' ' ∉ ['a', 'A', 'i', 'I'] →
      RecordMisspelledWord s word = s) ∧
    (trimSpace word ≠ [] →
     (containsNRT (trimSpace word) || containsDoubleSpace (trimSpace word)) = false →
     ¬(utf8Len (trimSpace word) = 1 ∧
        (trimSpace word).headD ' ' ∉ ['a', 'A', 'i', 'I']) →
      lookupCount (RecordMisspelledWord s word).misspelledWords (trimSpace word) =
        lookupCount s.misspelledWords (trimSpace word) + 1 ∧
      (lookupCount s.misspelledWords (trimSpace word) = 0 →
        (RecordMisspelledWord s word).misspelledOrder =
          s.misspelledOrder ++ [trimSpace word]) ∧
      (lookupCount s.misspelledWords (trimSpace word) ≠ 0 →
        (RecordMisspelledWord s word).misspelledOrder = s.misspelledOrder)) := by
  refine ⟨?_, ?_, ?_, ?_⟩
  · intro h
    rw [RecordMisspelledWord_def, if_pos h]
  · intro h2
    have hne : trimSpace word ≠ [] := by
      intro he
      rw [he] at h2
      exact absurd h2 (by decide)
    have heq : RecordMisspelledWord s word =
        (fields (trimSpace word)).foldl RecordMisspelledWord s := by
      rw [RecordMisspelledWord_def, if_neg hne, if_pos h2]
    refine ⟨heq, ?_⟩
    intro tok htok htokne
    rw [heq]
    exact foldl_RMW_lookup (fields (trimSpace word))
      (fun u hu => ⟨fields_no_space _ u hu, fields_ne_nil _ u hu⟩)
      tok htokne s
  · intro hne h2 h3 h4
    rw [RecordMisspelledWord_def, if_neg hne, if_neg (by simp [h2]),
        if_pos ⟨h3, h4⟩]
  · intro hne h2 h3
    rw [RecordMisspelledWord_def, if_neg hne, if_neg (by simp [h2]), if_neg h3]
    refine ⟨lookupCount_bumpCount_self _ _, ?_, ?_⟩
    · intro h0
      simp only [Stats.misspelledOrder]
      rw [if_pos h0]
    · intro h0
      simp only [Stats.misspelledOrder]
      rw [if_neg h0]

/-- C2, witness: the amended recording law applied at concrete words
(`"  "` trims to empty; `"a\tb"` splits; `"x"` is discarded; `"cat"`
is recorded with count 1). -/
theorem C2_record_misspelled_witness :
    (trimSpace [' ', ' '] = [] ∧
      RecordMisspelledWord NewStats [' ', ' '] = NewStats) ∧
    ((containsNRT (trimSpace ['a', '\t', 'b']) ||
        containsDoubleSpace (trimSpace ['a', '\t', 'b'])) = true ∧
      RecordMisspelledWord NewStats ['a', '\t', 'b'] =
        (fields (trimSpace ['a', '\t', 'b'])).foldl RecordMisspelledWord NewStats) ∧
    (RecordMisspelledWord NewStats ['x'] = NewStats) ∧
    (lookupCount (RecordMisspelledWord NewStats
        ['c', 'a', 't']).misspelledWords (trimSpace ['c', 'a', 't']) =
      lookupCount NewStats.misspelledWords (trimSpace ['c', 'a', 't']) + 1) := by
  refine ⟨⟨by decide, (C2_record_misspelled NewStats [' ', ' ']).1 (by decide)⟩,
          ⟨by decide, ((C2_record_misspelled NewStats ['a', '\t', 'b']).2.1 (by decide)).1⟩,
          (C2_record_misspelled NewStats ['x']).2.2.1 (by decide) (by decide)
            (by decide) (by decide),
          ((C2_record_misspelled NewStats ['c', 'a', 't']).2.2.2 (by decide)
            (by decide) (by decide)).1⟩

theorem WordHadError_iff {s : Stats} {p : Nat} :
    WordHadError s p = true ↔ p ∈ s.wordHadError := by
  simp [WordHadError]

@[simp] theorem WordHadError_RecordKeystroke (s : Stats) (b : Bool) (p : Nat) :
    WordHadError (RecordKeystroke s b) p = WordHadError s p := rfl

@[simp] theorem WordHadError_Finish (s : Stats) (p : Nat) :
    WordHadError (Finish s) p = WordHadError s p := rfl

@[simp] theorem WordHadError_RecordMisspelledWord (s : Stats) (w : List Char)
    (p : Nat) :
    WordHadError (RecordMisspelledWord s w) p = WordHadError s p := by
  unfold WordHadError
  rw [(RecordMisspelledWord_preserves s w).1]

theorem WordHadError_Mark_self (s : Stats) (ws : Nat) :
    WordHadError (MarkCurrentWordAsError s ws) ws = true := by
  rw [WordHadError_iff]
  simp only [MarkCurrentWordAsError]
  split_ifs with h
  · exact h
  · exact List.mem_cons_self _ _

theorem WordHadError_Mark_of {s : Stats} {p : Nat} (ws : Nat)
    (h : WordHadError s p = true) :
    WordHadError (MarkCurrentWordAsError s ws) p = true := by
  rw [WordHadError_iff] at h ⊢
  simp only [MarkCurrentWordAsError]
  split_ifs with hm
  · exact h
  · exact List.mem_cons_of_mem _ h

theorem WordHadError_finishWord {t : TypingTest} {p : Nat} (e : Nat)
    (h : WordHadError t.stats p = true) :
    WordHadError (finishWord t e).stats p = true := by
  simp only [finishWord]
  split_ifs <;> simpa using h

theorem WordHadError_checkCompletion {t : TypingTest} {p : Nat}
    (h : WordHadError t.stats p = true) :
    WordHadError (checkCompletion t).stats p = true := by
  simp only [checkCompletion]
  split_ifs <;> simpa using h

theorem WordHadError_TypeCharacter {t : TypingTest} (ch : Char) {p : Nat}
    (h : WordHadError t.stats p = true) :
    WordHadError (TypeCharacter t ch).2.stats p = true := by
  simp only [TypeCharacter]
  by_cases h1 : t.sampleRunes.length ≤ t.cursorPos
  · rw [if_pos h1]
    exact h
  · rw [if_neg h1]
    dsimp only
    apply WordHadError_checkCompletion
    by_cases h2 : ch = ' ' ∧ t.wordStart < t.cursorPos + 1 - 1
    · rw [if_pos h2]
      dsimp only
      apply WordHadError_finishWord
      dsimp only
      by_cases h3 : ¬(t.sampleRunes.getD t.cursorPos ' ' = ch)
      · rw [if_pos h3]
        exact WordHadError_Mark_of _ h
      · rw [if_neg h3]
        exact h
    · rw [if_neg h2]
      dsimp only
      by_cases h3 : ¬(t.sampleRunes.getD t.cursorPos ' ' = ch)
      · rw [if_pos h3]
        exact WordHadError_Mark_of _ h
      · rw [if_neg h3]
        exact h

theorem WordHadError_TypeNewline {t : TypingTest} {p : Nat}
    (h : WordHadError t.stats p = true) :
    WordHadError (TypeNewline t).2.stats p = true := by
  simp only [TypeNewline]
  by_cases h1 : t.sampleRunes.length ≤ t.cursorPos
  · rw [if_pos h1]
    exact h
  · rw [if_neg h1]
    dsimp only
    apply WordHadError_checkCompletion
    dsimp only
    by_cases h2 : t.wordStart < t.cursorPos + 1 - 1
    · rw [if_pos h2]
      apply WordHadError_finishWord
      dsimp only
      by_cases h3 : ¬(t.sampleRunes.getD t.cursorPos ' ' = '\n')
      · rw [if_pos h3]
        exact WordHadError_Mark_of _ h
      · rw [if_neg h3]
        exact h
    · rw [if_neg h2]
      dsimp only
      by_cases h3 : ¬(t.sampleRunes.getD t.cursorPos ' ' = '\n')
      · rw [if_pos h3]
        exact WordHadError_Mark_of _ h
      · rw [if_neg h3]
        exact h

theorem WordHadError_Backspace {t : TypingTest} {p : Nat}
    (h : WordHadError t.stats p = true) :
    WordHadError (Backspace t).stats p = true := by
  rw [Backspace_stats]
  exact h

/-- `RecordMisspelledWord` discards the one-byte word `"x"` for every
statistics state. -/
theorem RecordMisspelledWord_x (s : Stats) :
    RecordMisspelledWord s ['x'] = s := by
  rw [RecordMisspelledWord_base s ['x'] (by decide) (by decide),
      if_pos (by decide)]

/-- `RecordMisspelledWord` records the word `"cd"` for every statistics
state. -/
theorem RecordMisspelledWord_cd (s : Stats) :
    RecordMisspelledWord s ['c', 'd'] =
      { s with
        misspelledOrder :=
          if lookupCount s.misspelledWords ['c', 'd'] = 0 then
            s.misspelledOrder ++ [['c', 'd']]
          else s.misspelledOrder,
        misspelledWords := bumpCount s.misspelledWords ['c', 'd'] } := by
  rw [RecordMisspelledWord_base s ['c', 'd'] (by decide) (by decide),
      if_neg (by decide)]

/-- C1, counterexample.  Two traces refute the claim as stated.

Trace 1 (sample `"x y"`, keys `q`, Backspace, `x`, `space`): the
one-character word `"x"` is mistyped, corrected via Backspace before
its boundary, and finalized with its error flag still set — but the
ledger stays empty, because `RecordMisspelledWord` discards one-byte
words other than a/A/i/I.

Trace 2 (sample `"ab cd"`, keys `a`, `b`, `space`, Backspace, `x`,
`c`, `d`): the only incorrect keystroke is the `x` typed over the space
at index 2, yet it is attributed to word-start 3 (`WordStart` was not
walked back), so the word `"cd"` — whose own two positions were both
typed correctly, as the final user input shows — ends up in the
ledger. -/
theorem C1_ledger_counterexample :
    ((TypeCharacter (TypeCharacter (Backspace
        (TypeCharacter (NewTypingTest ['x', ' ', 'y']) 'q').2)
        'x').2 ' ').2.stats.misspelledOrder = [] ∧
     WordHadError ((TypeCharacter (TypeCharacter (Backspace
        (TypeCharacter (NewTypingTest ['x', ' ', 'y']) 'q').2)
        'x').2 ' ').2).stats 0 = true) ∧
    ((TypeCharacter (TypeCharacter (TypeCharacter (Backspace
        (TypeCharacter (TypeCharacter (TypeCharacter
          (NewTypingTest ['a', 'b', ' ', 'c', 'd']) 'a').2 'b').2 ' ').2)
        'x').2 'c').2 'd').2.stats.misspelledOrder = [['c', 'd']] ∧
     (TypeCharacter (TypeCharacter (TypeCharacter (Backspace
        (TypeCharacter (TypeCharacter (TypeCharacter
          (NewTypingTest ['a', 'b', ' ', 'c', 'd']) 'a').2 'b').2 ' ').2)
        'x').2 'c').2 'd').2.userRunes.drop 3 = ['c', 'd'] ∧
     (TypeCharacter (TypeCharacter (TypeCharacter (Backspace
        (TypeCharacter (TypeCharacter (TypeCharacter
          (NewTypingTest ['a', 'b', ' ', 'c', 'd']) 'a').2 'b').2 ' ').2)
        'x').2 'c').2 'd').2.stats.wordHadError = [3]) := by
  have h3 : (TypeCharacter (Backspace
      (TypeCharacter (NewTypingTest ['x', ' ', 'y']) 'q').2) 'x').2 =
      ⟨['x', ' ', 'y'], ['x'], 1, 0, ⟨2, 1, [], [], [0], false⟩, false⟩ := by
    decide
  have h4 : (TypeCharacter
      (⟨['x', ' ', 'y'], ['x'], 1, 0, ⟨2, 1, [], [], [0], false⟩, false⟩ :
        TypingTest) ' ').2 =
      ⟨['x', ' ', 'y'], ['x', ' '], 2, 2, ⟨3, 2, [], [], [0], false⟩, false⟩ := by
    simp [TypeCharacter, finishWord, checkCompletion, WordHadError,
      RecordKeystroke, MarkCurrentWordAsError, RecordMisspelledWord_x]
  have g4 : (Backspace (TypeCharacter (TypeCharacter (TypeCharacter
      (NewTypingTest ['a', 'b', ' ', 'c', 'd']) 'a').2 'b').2 ' ').2) =
      ⟨['a', 'b', ' ', 'c', 'd'], ['a', 'b'], 2, 3,
        ⟨3, 3, [], [], [], false⟩, false⟩ := by
    decide
  have g6 : (TypeCharacter (TypeCharacter
      (⟨['a', 'b', ' ', 'c', 'd'], ['a', 'b'], 2, 3,
        ⟨3, 3, [], [], [], false⟩, false⟩ : TypingTest) 'x').2 'c').2 =
      ⟨['a', 'b', ' ', 'c', 'd'], ['a', 'b', 'x', 'c'], 4, 3,
        ⟨5, 4, [], [], [3], false⟩, false⟩ := by
    decide
  have g7 : (TypeCharacter
      (⟨['a', 'b', ' ', 'c', 'd'], ['a', 'b', 'x', 'c'], 4, 3,
        ⟨5, 4, [], [], [3], false⟩, false⟩ : TypingTest) 'd').2 =
      ⟨['a', 'b', ' ', 'c', 'd'], ['a', 'b', 'x', 'c', 'd'], 5, 3,
        ⟨6, 5, [(['c', 'd'], 1)], [['c', 'd']], [3], true⟩, true⟩ := by
    simp [TypeCharacter, finishWord, checkCompletion, WordHadError,
      RecordKeystroke, MarkCurrentWordAsError, Finish, RecordMisspelledWord_cd,
      lookupCount, bumpCount]
  rw [h3, h4, g4, g6, g7]
  decide

/-- C1, amended: the per-word error flag, keyed by the engine's current
`WordStart` at the time of an incorrect keystroke, is sticky — it is
never cleared by `Backspace`, by later keystrokes, or by the ledger
recording; an incorrect `TypeCharacter` sets the flag of the current
`WordStart`; a word whose start index carries no flag is never passed
to the ledger at finalization; and a finalized flagged word is recorded
in the ledger (its count strictly increases) *provided* it survives
`RecordMisspelledWord`'s filter — in particular any whitespace-free
word of two or more characters.  (As the counterexample shows, a
one-character word like `"x"` is silently discarded, and the flag may
belong to an error typed at a neighbouring boundary, so an
entirely-correctly-typed word can still be recorded.) -/
theorem C1_sticky_error_flags (t : TypingTest) (p : Nat) (ch : Char) :
    (WordHadError t.stats p = true →
       WordHadError (Backspace t).stats p = true ∧
       WordHadError (TypeCharacter t ch).2.stats p = true ∧
       WordHadError (TypeNewline t).2.stats p = true) ∧
    (t.cursorPos < t.sampleRunes.length →
       t.sampleRunes.getD t.cursorPos ' ' ≠ ch →
       WordHadError (TypeCharacter t ch).2.stats t.wordStart = true) ∧
    (WordHadError t.stats t.wordStart = false →
       ∀ e, finishWord t e = t) ∧
    (∀ e, WordHadError t.stats t.wordStart = true →
       (∀ c ∈ (t.sampleRunes.drop t.wordStart).take (e - t.wordStart),
          goIsSpace c = false) →
       (t.sampleRunes.drop t.wordStart).take (e - t.wordStart) ≠ [] →
       ¬(utf8Len ((t.sampleRunes.drop t.wordStart).take (e - t.wordStart)) = 1 ∧
          ((t.sampleRunes.drop t.wordStart).take (e - t.wordStart)).headD ' '
            ∉ ['a', 'A', 'i', 'I']) →
       lookupCount (finishWord t e).stats.misspelledWords
           ((t.sampleRunes.drop t.wordStart).take (e - t.wordStart)) =
         lookupCount t.stats.misspelledWords
           ((t.sampleRunes.drop t.wordStart).take (e - t.wordStart)) + 1) := by
  refine ⟨?_, ?_, ?_, ?_⟩
  · intro h
    exact ⟨WordHadError_Backspace h, WordHadError_TypeCharacter ch h,
           WordHadError_TypeNewline h⟩
  · intro hlt hne
    simp only [TypeCharacter]
    rw [if_neg (by omega)]
    dsimp only
    apply WordHadError_checkCompletion
    by_cases h2 : ch = ' ' ∧ t.wordStart < t.cursorPos + 1 - 1
    · rw [if_pos h2]
      dsimp only
      apply WordHadError_finishWord
      dsimp only
      rw [if_pos hne]
      exact WordHadError_Mark_self _ _
    · rw [if_neg h2]
      dsimp only
      rw [if_pos hne]
      exact WordHadError_Mark_self _ _
  · intro h e
    rw [finishWord, if_neg (by simp [h])]
  · intro e hflag hns hne hfilter
    rw [finishWord, if_pos (by simp [hflag])]
    dsimp only
    rw [RecordMisspelledWord_base _ _ hns hne, if_neg hfilter]
    exact lookupCount_bumpCount_self _ _

/-- C1, witness: the amended flag/ledger law applied on a concrete
mistyped state (sample `"ab c"`, `x` typed over the `a`). -/
theorem C1_sticky_error_flags_witness :
    (WordHadError (TypeCharacter (NewTypingTest ['a', 'b', ' ', 'c']) 'x').2.stats 0 = true ∧
     WordHadError (Backspace (TypeCharacter
        (NewTypingTest ['a', 'b', ' ', 'c']) 'x').2).stats 0 = true) ∧
    lookupCount (finishWord (TypeCharacter
        (NewTypingTest ['a', 'b', ' ', 'c']) 'x').2 2).stats.misspelledWords
      (((TypeCharacter (NewTypingTest ['a', 'b', ' ', 'c']) 'x').2.sampleRunes.drop
          (TypeCharacter (NewTypingTest ['a', 'b', ' ', 'c']) 'x').2.wordStart).take
        (2 - (TypeCharacter (NewTypingTest ['a', 'b', ' ', 'c']) 'x').2.wordStart)) =
      lookupCount (TypeCharacter
        (NewTypingTest ['a', 'b', ' ', 'c']) 'x').2.stats.misspelledWords
        (((TypeCharacter (NewTypingTest ['a', 'b', ' ', 'c']) 'x').2.sampleRunes.drop
            (TypeCharacter (NewTypingTest ['a', 'b', ' ', 'c']) 'x').2.wordStart).take
          (2 - (TypeCharacter (NewTypingTest ['a', 'b', ' ', 'c']) 'x').2.wordStart)) + 1 := by
  constructor
  · constructor
    · exact (C1_sticky_error_flags (NewTypingTest ['a', 'b', ' ', 'c']) 0 'x').2.1
        (by decide) (by decide)
    · exact ((C1_sticky_error_flags
        (TypeCharacter (NewTypingTest ['a', 'b', ' ', 'c']) 'x').2 0 'x').1
          (by decide)).1
  · exact (C1_sticky_error_flags
      (TypeCharacter (NewTypingTest ['a', 'b', ' ', 'c']) 'x').2 0 'x').2.2.2 2
        (by decide) (by decide) (by decide) (by decide)

theorem breakPoint_le (l : List Char) : breakPoint l ≤ l.length := by
  induction l with
  | nil => simp [breakPoint]
  | cons c cs ih =>
    rw [breakPoint]
    split_ifs
    · simp
    · simp only [List.length_cons]
      omega

theorem breakPoint_pos {l : List Char} (h : l ≠ []) : 1 ≤ breakPoint l := by
  cases l with
  | nil => cases h rfl
  | cons c cs =>
    rw [breakPoint]
    split_ifs <;> omega

/-- The shape of every line `wrapText` can produce with a positive
`maxWidth`: a non-empty newline-free line of at most `maxWidth`
characters, or such a (possibly empty) line terminated by the
newline that was kept on a hard break. -/
def goodLine (maxWidth : ℤ) (l : List Char) : Prop :=
  (l ≠ [] ∧ '\n' ∉ l ∧ (l.length : ℤ) ≤ maxWidth) ∨
  (∃ p, l = p ++ ['\n'] ∧ '\n' ∉ p ∧ (p.length : ℤ) ≤ maxWidth)

theorem wrapText_foldl_no_newline (w : ℤ) (l : List Char) :
    ∀ (lines : List (List Char)) (cur : List Char), '\n' ∉ l →
      (cur.length : ℤ) + l.length ≤ w →
      l.foldl (wrapStep w) (lines, cur) = (lines, cur ++ l) := by
  induction l with
  | nil =>
    intro lines cur _ _
    simp
  | cons c cs ih =>
    intro lines cur hnl hlen
    have hc : ¬(c = '\n') := fun he => hnl (he ▸ List.mem_cons_self c cs)
    have hcur : ¬(w ≤ (cur.length : ℤ)) := by
      simp only [List.length_cons] at hlen
      push_cast at hlen
      omega
    rw [List.foldl_cons]
    simp only [wrapStep]
    rw [if_neg hc, if_neg hcur,
        ih lines (cur ++ [c])
          (fun hm => hnl (List.mem_cons_of_mem c hm))
          (by simp only [List.length_append, List.length_cons] at hlen ⊢
              push_cast at hlen ⊢
              simp only [List.length_nil]
              omega)]
    simp

theorem wrapText_single (w : ℤ) (l : List Char)
    (hg : goodLine w l) : wrapText l w = [l] := by
  rcases hg with ⟨hne, hnl, hlen⟩ | ⟨p, rfl, hnl, hlen⟩
  · simp only [wrapText]
    rw [wrapText_foldl_no_newline w l [] [] hnl (by simpa using hlen)]
    simp [List.length_pos.2 hne]
  · simp only [wrapText]
    rw [List.foldl_append,
        wrapText_foldl_no_newline w p [] [] hnl (by simpa using hlen)]
    simp [wrapStep]

/-- The invariant of `wrapText`'s character loop: all emitted lines are
`goodLine`s, and the current line is newline-free and within width. -/
def wrapInv (w : ℤ) (st : List (List Char) × List Char) : Prop :=
  (∀ l ∈ st.1, goodLine w l) ∧ '\n' ∉ st.2 ∧ (st.2.length : ℤ) ≤ w

theorem wrapStep_inv (w : ℤ) (hw : 1 ≤ w) (st : List (List Char) × List Char)
    (hinv : wrapInv w st) (ch : Char) : wrapInv w (wrapStep w st ch) := by
  obtain ⟨hlines, hnl, hlen⟩ := hinv
  simp only [wrapStep]
  by_cases hch : ch = '\n'
  · rw [if_pos hch]
    refine ⟨?_, by simp, by simp; omega⟩
    intro l hl
    rcases List.mem_append.1 hl with hl1 | hl2
    · exact hlines l hl1
    · have hleq : l = st.2 ++ ['\n'] := by simpa using hl2
      exact Or.inr ⟨st.2, hleq, hnl, hlen⟩
  · rw [if_neg hch]
    by_cases hwl : w ≤ (st.2.length : ℤ)
    · rw [if_pos hwl]
      have hlenw : (st.2.length : ℤ) = w := le_antisymm hlen hwl
      have hne2 : st.2 ≠ [] := by
        intro he
        rw [he] at hlenw
        simp at hlenw
        omega
      have hbp1 : 1 ≤ breakPoint st.2 := breakPoint_pos hne2
      have hbple : breakPoint st.2 ≤ st.2.length := breakPoint_le st.2
      refine ⟨?_, ?_, ?_⟩
      · intro l hl
        rcases List.mem_append.1 hl with hl1 | hl2
        · exact hlines l hl1
        · have hleq : l = st.2.take (breakPoint st.2) := by simpa using hl2
          refine Or.inl ⟨?_, ?_, ?_⟩
          · rw [hleq]
            intro he
            have := congrArg List.length he
            simp only [List.length_take, List.length_nil] at this
            omega
          · rw [hleq]
            intro hmem
            exact hnl (List.take_subset _ _ hmem)
          · rw [hleq, List.length_take]
            push_cast
            omega
      · intro hmem
        rcases List.mem_append.1 hmem with h1 | h2
        · exact hnl (List.drop_subset _ _ h1)
        · have : '\n' = ch := by simpa using h2
          exact hch this.symm
      · simp only [List.length_append, List.length_drop, List.length_cons,
          List.length_nil]
        push_cast
        omega
    · rw [if_neg hwl]
      refine ⟨hlines, ?_, ?_⟩
      · intro hmem
        rcases List.mem_append.1 hmem with h1 | h2
        · exact hnl h1
        · have : '\n' = ch := by simpa using h2
          exact hch this.symm
      · simp only [List.length_append, List.length_cons, List.length_nil]
        push_cast at hwl ⊢
        omega

theorem wrapText_good (w : ℤ) (hw : 1 ≤ w) (text : List Char) :
    ∀ l ∈ wrapText text w, goodLine w l := by
  have hfold : ∀ (l : List Char) (st : List (List Char) × List Char),
      wrapInv w st → wrapInv w (l.foldl (wrapStep w) st) := by
    intro l
    induction l with
    | nil =>
      intro st h
      exact h
    | cons c cs ih =>
      intro st h
      rw [List.foldl_cons]
      exact ih _ (wrapStep_inv w hw st h c)
  have hinv : wrapInv w (text.foldl (wrapStep w) ([], [])) :=
    hfold text ([], []) ⟨by simp, by simp, by simp; omega⟩
  intro l hl
  simp only [wrapText] at hl
  split_ifs at hl with hcur
  · rcases List.mem_append.1 hl with h1 | h2
    · exact hinv.1 l h1
    · have hleq : l = (text.foldl (wrapStep w) ([], [])).2 := by simpa using h2
      refine Or.inl ⟨?_, hleq ▸ hinv.2.1, hleq ▸ hinv.2.2⟩
      rw [hleq]
      exact List.length_pos.1 hcur
  · exact hinv.1 l hl

/-- C8, counterexample.  The specification claims `wrapText` is
idempotent "for every text and maxWidth"; at `maxWidth = 0` wrapping
`"a"` produces the empty line `""`, and re-wrapping `""` yields no
lines at all rather than `[""]`. -/
theorem C8_wrapText_idempotent_counterexample :
    [] ∈ wrapText ['a'] 0 ∧ wrapText ([] : List Char) 0 ≠ [[]] := by
  decide

/-- C8, amended: for every text and every `maxWidth ≥ 1`, each line
produced by `wrapText` re-wraps (with the same `maxWidth`) to exactly
itself; idempotency can fail only for the degenerate widths
`maxWidth ≤ 0`. -/
theorem C8_wrapText_idempotent (text : List Char) (w : ℤ) (hw : 1 ≤ w) :
    ∀ l ∈ wrapText text w, wrapText l w = [l] :=
  fun l hl => wrapText_single w l (wrapText_good w hw text l hl)

/-- C8, witness: re-wrapping each line of a concrete wrap. -/
theorem C8_wrapText_idempotent_witness :
    (1 : ℤ) ≤ 3 ∧ wrapText ['h', 'i'] 3 = [['h', 'i']] :=
  ⟨by decide, C8_wrapText_idempotent ['h', 'i'] 3 (by decide) ['h', 'i'] (by decide)⟩

end Rocketype
